import Mathlib

/-!
Verification of the JupiterOne integration SDK core against its
natural-language specification.

The development shallowly embeds the relevant TypeScript source:

* `src/unnamed/part_001` — relationship construction
  (`createRelationship`, `generateRelationshipType`,
  `generateRelationshipKey`);
* `src/unnamed/part_000` (second half) — the synchronization uploader
  (`synchronizeCollectedData`, `uploadGraphObjectData`, `uploadData`,
  `uploadDataChunk`, `handleUploadDataChunkError`, `shrinkRawData`);
* the step-execution engine (`executeIntegrationInstance`, job state,
  partial-dataset aggregation, persistence) is not present in the
  source tree — only its tests are — so those parts are modelled from
  the specification and the expectations of the in-tree tests, as
  marked in the corresponding doc comments.

JavaScript values flowing through `JSON.stringify` are modelled by the
inductive type `Json`; string sizes are modelled both as UTF-16 code
units (JavaScript `String.prototype.length`) and UTF-8 bytes
(`Buffer.byteLength`), because the source mixes the two measures.
-/

namespace SdkSpec

/-! ## JSON values and `JSON.stringify` -/

/-- A JSON value as manipulated by the SDK: the payload of entities,
relationships and raw-data fields.  Object fields are kept in insertion
order, matching JavaScript object key enumeration for string keys. -/
inductive Json where
  | null : Json
  | bool (b : Bool) : Json
  | num (n : Int) : Json
  | str (s : String) : Json
  | arr (xs : List Json) : Json
  | obj (fs : List (String × Json)) : Json

/-- The number of UTF-16 code units of a string: JavaScript
`String.prototype.length`. -/
def utf16Len (s : String) : Nat :=
  (s.data.map (fun c => if c.toNat ≥ 0x10000 then 2 else 1)).sum

/-- The number of UTF-8 bytes of a string: `Buffer.byteLength`. -/
def byteLen (s : String) : Nat :=
  (s.data.map Char.utf8Size).sum

/-- JSON string escaping as performed by `JSON.stringify` for a single
character. -/
def jsEscapeChar (c : Char) : String :=
  if c = '"' then "\\\""
  else if c = '\\' then "\\\\"
  else if c = '\x08' then "\\b"
  else if c = '\x09' then "\\t"
  else if c = '\x0a' then "\\n"
  else if c = '\x0c' then "\\f"
  else if c = '\x0d' then "\\r"
  else if c.toNat < 0x20 then
    "\\u00" ++ String.mk [Nat.digitChar (c.toNat / 16), Nat.digitChar (c.toNat % 16)]
  else String.singleton c

/-- `JSON.stringify` of a string value: quoted and escaped. -/
def jsQuote (s : String) : String :=
  "\"" ++ String.join (s.data.map jsEscapeChar) ++ "\""

/-- Comma-joining of serialized elements, as `Array.prototype.join(',')`. -/
def commaJoin : List String → String
  | [] => ""
  | [s] => s
  | s :: rest => s ++ "," ++ commaJoin rest

mutual

/-- `JSON.stringify` on `Json` values (integers only for numbers). -/
def stringifyJ : Json → String
  | .null => "null"
  | .bool b => if b then "true" else "false"
  | .num n => toString n
  | .str s => jsQuote s
  | .arr xs => "[" ++ commaJoin (stringifyArr xs) ++ "]"
  | .obj fs => "\x7b" ++ commaJoin (stringifyObj fs) ++ "\x7d"

/-- Stringification of the elements of a JSON array. -/
def stringifyArr : List Json → List String
  | [] => []
  | x :: xs => stringifyJ x :: stringifyArr xs

/-- Stringification of the fields of a JSON object. -/
def stringifyObj : List (String × Json) → List String
  | [] => []
  | (k, v) :: fs => (jsQuote k ++ ":" ++ stringifyJ v) :: stringifyObj fs

end

/-- The `.length` of the `JSON.stringify` serialization of a value —
the size measure used by `shrinkRawData` to pick what to truncate. -/
def sLen (j : Json) : Nat := utf16Len (stringifyJ j)

/-! ## Relationship construction (`src/unnamed/part_001`)

Embedding of `createRelationship`, `generateRelationshipType` and
`generateRelationshipKey`.  JavaScript strings are split on a single
character with `List.splitOn` over the character list, which agrees
with `String.prototype.split('_')` (an empty string splits to `[""]`,
a lone separator to `["", ""]`). -/

/-- JavaScript `toLowerCase()` restricted to ASCII letters (the only
case the SDK exercises: relationship classes such as `"HAS"`). -/
def jsToLower (s : String) : String := String.mk (s.data.map Char.toLower)

/-- JavaScript `toUpperCase()` restricted to ASCII letters. -/
def jsToUpper (s : String) : String := String.mk (s.data.map Char.toUpper)

/-- Replace the value of field `k` in a JavaScript object (keeping its
position), or append the field when absent: the effect of a property
assignment `o[k] = v`. -/
def setField : List (String × Json) → String → Json → List (String × Json)
  | [], k, v => [(k, v)]
  | (k', v') :: fs, k, v =>
    if k' = k then (k, v) :: fs else (k', v') :: setField fs k v

/-- JavaScript object spread `{...base, ...props}`: later fields
override earlier ones in place. -/
def mergeFields (base props : List (String × Json)) : List (String × Json) :=
  props.foldl (fun acc kv => setField acc kv.1 kv.2) base

/-- The `do { if (toValueParts[i] === fromValueParts[i]) i++; else break; }
while (i < toValueParts.length - 1)` loop of `generateRelationshipType`.
Out-of-range indexing yields `none`, matching JavaScript `undefined`
(and `undefined === undefined` is `true`, as is `none = none`). -/
def typePrefixLoop (fromParts toParts : List (List Char)) : Nat → Nat → Nat
  | i, 0 => i
  | i, fuel + 1 =>
    if toParts.get? i = fromParts.get? i then
      if i + 1 < toParts.length - 1 then typePrefixLoop fromParts toParts (i + 1) fuel
      else i + 1
    else i

/-- `generateRelationshipType(_class, from, to)`: strips the common
`_`-separated prefix from the target type and glues
`` `${fromValue}_${_class.toLowerCase()}_${toValueParts.slice(i).join('_')}` ``. -/
def generateRelationshipType (rclass fromType toType : String) : String :=
  let fromValueParts := fromType.data.splitOn '_'
  let toValueParts := toType.data.splitOn '_'
  let i := typePrefixLoop fromValueParts toValueParts 0 (toValueParts.length + 1)
  fromType ++ "_" ++ jsToLower rclass ++ "_"
    ++ String.mk (List.intercalate ['_'] (toValueParts.drop i))

/-- `generateRelationshipKey(_class, from, to)`:
`` `${fromValue}|${_class.toLowerCase()}|${toValue}` ``. -/
def generateRelationshipKey (rclass fromKey toKey : String) : String :=
  fromKey ++ "|" ++ jsToLower rclass ++ "|" ++ toKey

/-- `createRelationship` from `src/unnamed/part_001`: builds the
explicit relationship object; `properties` are spread last and may
override the generated fields. -/
def createRelationship (rclass fromType fromKey toType toKey : String)
    (properties : List (String × Json)) : Json :=
  let relationshipClass := jsToUpper rclass
  let rtype := generateRelationshipType rclass fromType toType
  Json.obj (mergeFields
    [("_key", .str (fromKey ++ "|" ++ jsToLower rclass ++ "|" ++ toKey)),
     ("_type", .str rtype),
     ("_class", .str relationshipClass),
     ("_fromEntityKey", .str fromKey),
     ("_toEntityKey", .str toKey),
     ("displayName", .str relationshipClass)]
    properties)

example : generateRelationshipType "HAS" "test" "test" = "test_has_" := by decide

/-- C10: for `createDirectRelationship` between two entities whose
`_type` values are equal and contain no underscore, the generated
relationship `_type` has an empty target segment and a trailing
underscore — it equals `fromType + "_" + _class.toLowerCase() + "_"` —
and the relationship `_key` equals
`from._key + "|" + _class.toLowerCase() + "|" + to._key`. -/
theorem createRelationship_same_type_no_underscore
    (rclass t fromKey toKey : String) (h : '_' ∉ t.data) :
    createRelationship rclass t fromKey t toKey [] =
      Json.obj
        [("_key", .str (fromKey ++ "|" ++ jsToLower rclass ++ "|" ++ toKey)),
         ("_type", .str (t ++ "_" ++ jsToLower rclass ++ "_")),
         ("_class", .str (jsToUpper rclass)),
         ("_fromEntityKey", .str fromKey),
         ("_toEntityKey", .str toKey),
         ("displayName", .str (jsToUpper rclass))] := by
  have hsplit : t.data.splitOn '_' = [t.data] := by
    apply List.splitOnP_eq_single
    intro x hx hbeq
    have hx' : x = '_' := by simpa using hbeq
    exact h (hx' ▸ hx)
  simp only [createRelationship, generateRelationshipType, mergeFields, List.foldl_nil,
    hsplit, typePrefixLoop, List.length_cons, List.length_nil]
  norm_num [typePrefixLoop, List.intercalate]
  show t ++ "_" ++ jsToLower rclass ++ "_" ++ "" = t ++ "_" ++ jsToLower rclass ++ "_"
  exact String.append_empty _

/-- Witness for C10 at the data of the compression test: two entities
of type `test` with keys `test` and `test1`, related with class `HAS`. -/
theorem createRelationship_same_type_no_underscore_witness :
    ('_' ∉ "test".data) ∧
    createRelationship "HAS" "test" "test" "test" "test1" [] =
      Json.obj
        [("_key", .str "test|has|test1"),
         ("_type", .str "test_has_"),
         ("_class", .str "HAS"),
         ("_fromEntityKey", .str "test"),
         ("_toEntityKey", .str "test1"),
         ("displayName", .str "HAS")] :=
  ⟨by decide, by
    rw [createRelationship_same_type_no_underscore "HAS" "test" "test" "test1" (by decide)]
    rfl⟩

/-! ## Uploader constants and batching (`src/unnamed/part_000`, synchronization module) -/

/-- `const UPLOAD_BATCH_SIZE = 250`. -/
def UPLOAD_BATCH_SIZE : Nat := 250

/-- `const UPLOAD_CONCURRENCY = 6`. -/
def UPLOAD_CONCURRENCY : Nat := 6

/-- `const UPLOAD_SIZE_MAX = 6275072` (6291456 bytes minus 16384 bytes
of header space). -/
def UPLOAD_SIZE_MAX : Nat := 6275072

/-- lodash `chunk(data, size)`: consecutive groups of `size` elements,
the last group possibly shorter; `chunk(data, 0)` is `[]`. -/
def chunk : List α → Nat → List (List α)
  | _, 0 => []
  | [], _ + 1 => []
  | x :: xs, n + 1 => (x :: xs).take (n + 1) :: chunk (xs.drop n) (n + 1)
termination_by l _ => l.length
decreasing_by simp [List.length_drop]; omega

/-- Which persister collection a batch is posted to. -/
inductive UploadKind where
  | entities : UploadKind
  | relationships : UploadKind
deriving DecidableEq

/-- The path segment (and JSON body key) for an upload kind. -/
def UploadKind.segment : UploadKind → String
  | .entities => "entities"
  | .relationships => "relationships"

/-- One `POST /persister/synchronization/jobs/<jobId>/<type>` issued by
`uploadDataChunk`, with body `{<type>: batch}` (the body key is the
kind's segment). -/
structure UploadRequest where
  url : String
  kind : UploadKind
  body : List Json

/-- The batched upload work `uploadData` hands to `pMap`: the batch
requests, in batch order, and the `concurrency` option given to `pMap`. -/
structure UploadPlan where
  requests : List UploadRequest
  concurrency : Nat

/-- `uploadData(context, type, data, uploadBatchSize)`: chunks `data`
into `uploadBatchSize || UPLOAD_BATCH_SIZE` groups (`0` is falsy in
JavaScript, so an explicit `0` also falls back to 250) and maps each
non-empty batch (`if (batch.length)`) to a `POST` request, run by
`pMap` with `{ concurrency: UPLOAD_CONCURRENCY }`. -/
def uploadData (jobId : String) (kind : UploadKind) (data : List Json)
    (uploadBatchSize : Option Nat) : UploadPlan :=
  let size := match uploadBatchSize with
    | some n => if n = 0 then UPLOAD_BATCH_SIZE else n
    | none => UPLOAD_BATCH_SIZE
  let batches := chunk data size
  { requests := (batches.filter (fun b => b.length ≠ 0)).map (fun b =>
      { url := "/persister/synchronization/jobs/" ++ jobId ++ "/" ++ kind.segment,
        kind := kind, body := b }),
    concurrency := UPLOAD_CONCURRENCY }

/-- A parsed `FlushedFile`. -/
structure FlushedGraphObjectData where
  entities : List Json
  relationships : List Json

/-- `uploadGraphObjectData`: uploads the `entities` array when its
length is not 0, then the `relationships` array when its length is
not 0; empty arrays are not uploaded at all. -/
def uploadGraphObjectData (jobId : String) (g : FlushedGraphObjectData)
    (uploadBatchSize : Option Nat) : List UploadRequest :=
  (if g.entities.length ≠ 0 then
    (uploadData jobId .entities g.entities uploadBatchSize).requests
   else []) ++
  (if g.relationships.length ≠ 0 then
    (uploadData jobId .relationships g.relationships uploadBatchSize).requests
   else [])

theorem chunk_flatten {α : Type} (l : List α) (n : Nat) (h : n ≠ 0) :
    (chunk l n).flatten = l := by
  induction l, n using chunk.induct with
  | case1 l => exact absurd rfl h
  | case2 n => simp [chunk]
  | case3 x xs n ih =>
    rw [chunk, List.flatten_cons, ih (Nat.succ_ne_zero n)]
    exact List.take_append_drop (n + 1) (x :: xs)

theorem chunk_mem {α : Type} (l : List α) (n : Nat) :
    ∀ b ∈ chunk l n, b.length ≤ n ∧ b ≠ [] := by
  induction l, n using chunk.induct with
  | case1 l => simp [chunk]
  | case2 n => simp [chunk]
  | case3 x xs n ih =>
    intro b hb
    rw [chunk] at hb
    rcases List.mem_cons.mp hb with rfl | h
    · refine ⟨?_, by simp⟩
      simp [List.length_take]
    · exact ih b h

/-- C5: with no explicit batch size, `uploadData` splits the data into
consecutive batches of at most 250 items, posts each non-empty batch to
`/persister/synchronization/jobs/<jobId>/entities` (or
`/relationships`) with body `{entities: batch}` (or
`{relationships: batch}`), runs the batch uploads through `pMap` with
concurrency 6, and `uploadGraphObjectData` does not upload empty
`entities`/`relationships` arrays at all. -/
theorem uploadData_batches_of_250_concurrency_6
    (jobId : String) (kind : UploadKind) (data : List Json) :
    (∀ r ∈ (uploadData jobId kind data none).requests,
        r.body.length ≤ 250 ∧ r.body ≠ [] ∧
        r.url = "/persister/synchronization/jobs/" ++ jobId ++ "/" ++ kind.segment ∧
        r.kind = kind) ∧
    ((uploadData jobId kind data none).requests.map (fun r => r.body)).flatten = data ∧
    (uploadData jobId kind data none).concurrency = 6 ∧
    (∀ g : FlushedGraphObjectData, g.entities = [] → g.relationships = [] →
        uploadGraphObjectData jobId g none = []) := by
  refine ⟨?_, ?_, rfl, ?_⟩
  · intro r hr
    simp only [uploadData, List.mem_map, List.mem_filter] at hr
    obtain ⟨b, ⟨hb, -⟩, rfl⟩ := hr
    obtain ⟨hlen, hne⟩ := chunk_mem data UPLOAD_BATCH_SIZE b hb
    exact ⟨hlen, hne, rfl, rfl⟩
  · simp only [uploadData]
    have : ∀ b ∈ chunk data UPLOAD_BATCH_SIZE, b.length ≠ 0 := by
      intro b hb
      simpa [List.length_eq_zero] using (chunk_mem data UPLOAD_BATCH_SIZE b hb).2
    rw [List.filter_eq_self.mpr (by simpa using this), List.map_map]
    have hmap : (List.map
        ((fun (r : UploadRequest) => r.body) ∘ fun b =>
          { url := "/persister/synchronization/jobs/" ++ jobId ++ "/" ++ kind.segment,
            kind := kind, body := b })
        (chunk data UPLOAD_BATCH_SIZE)) = chunk data UPLOAD_BATCH_SIZE :=
      List.map_id'' (fun _ => rfl) _
    rw [hmap]
    exact chunk_flatten data UPLOAD_BATCH_SIZE (by decide)
  · intro g he hr
    simp [uploadGraphObjectData, he, hr]

/-- Witness for C5 at a concrete three-entity upload. -/
theorem uploadData_batches_of_250_concurrency_6_witness :
    ((uploadData "job-1" .entities [Json.null, Json.null, Json.null] none).requests.map
        (fun r => r.body)).flatten = [Json.null, Json.null, Json.null] ∧
    (uploadData "job-1" .entities [Json.null, Json.null, Json.null] none).concurrency = 6 ∧
    uploadGraphObjectData "job-1" ⟨[], []⟩ none = [] :=
  ⟨(uploadData_batches_of_250_concurrency_6 "job-1" .entities _).2.1,
   (uploadData_batches_of_250_concurrency_6 "job-1" .entities _).2.2.1,
   (uploadData_batches_of_250_concurrency_6 "job-1" .entities
      [Json.null, Json.null, Json.null]).2.2.2 ⟨[], []⟩ rfl rfl⟩

/-! ## Upload error handling and retry (`handleUploadDataChunkError`,
`uploadDataChunk`) -/

/-- `{error: {code, message}}` payload decoded from a response body. -/
structure SystemErrorResponseData where
  code : String
  message : String

/-- The fields of a thrown upload error that
`handleUploadDataChunkError` inspects: `err.code`,
`err.response?.status` and `err.response?.data?.error`. -/
structure UploadError where
  code : Option String
  responseStatus : Option Nat
  responseErrorData : Option SystemErrorResponseData

/-- `isRequestUploadTooLargeError`: code
`RequestEntityTooLargeException` or HTTP status 413. -/
def isRequestUploadTooLargeError (err : UploadError) : Bool :=
  err.code == some "RequestEntityTooLargeException" || err.responseStatus == some 413

/-- `getSystemErrorResponseData`: `err.response?.data?.error`. -/
def getSystemErrorResponseData (err : UploadError) : Option SystemErrorResponseData :=
  err.responseErrorData

/-- An `IntegrationError` as thrown by the upload path. -/
structure IntegrationErrorModel where
  code : String
  fatal : Bool
  message : String

/-- What `handleUploadDataChunkError` did when it returned normally
(so that the `retry` driver keeps retrying). -/
structure HandlerOutcome where
  shrankRawData : Bool
  warned : Bool

/-- `handleUploadDataChunkError`: upload-too-large errors shrink the
batch in place; otherwise a `JOB_NOT_AWAITING_UPLOADS` response body
throws a fatal `INTEGRATION_UPLOAD_AFTER_JOB_ENDED`; any normal return
lets the retry loop continue (warning unless the error is a
`CredentialsError`). -/
def handleUploadDataChunkError (err : UploadError) (attemptsRemaining : Bool) :
    Except IntegrationErrorModel HandlerOutcome :=
  let systemErrorResponseData := getSystemErrorResponseData err
  if isRequestUploadTooLargeError err then
    .ok { shrankRawData := true,
          warned := attemptsRemaining && !(err.code == some "CredentialsError") }
  else if systemErrorResponseData.map (fun d => d.code) == some "JOB_NOT_AWAITING_UPLOADS" then
    .error { code := "INTEGRATION_UPLOAD_AFTER_JOB_ENDED", fatal := true,
             message := "Failed to upload integration data because job has already ended" }
  else
    .ok { shrankRawData := false,
          warned := attemptsRemaining && !(err.code == some "CredentialsError") }

/-- The options `uploadDataChunk` passes to `retry`. -/
structure RetryOptions where
  maxAttempts : Nat
  delayMs : Nat
  factor : ℚ

/-- `{ maxAttempts: 5, delay: 200, factor: 1.05 }`. -/
def uploadDataChunkRetryOptions : RetryOptions :=
  { maxAttempts := 5, delayMs := 200, factor := 21 / 20 }

/-- Outcome of a retried batch upload.  `attemptsUsed` counts the
`POST`s actually issued. -/
inductive RetryResult where
  | succeeded (attemptsUsed : Nat)
  | failedFatal (err : IntegrationErrorModel) (attemptsUsed : Nat)
  | exhausted (lastErr : UploadError) (attemptsUsed : Nat)

/-- Modelled from the spec: the `retry` driver of `@lifeomic/attempt`
(an external library).  Each attempt runs the `POST` (given as a
function from the attempt number to its error, `none` meaning
success); on error the `handleError` callback runs, and a throw from
it aborts the retry loop immediately, otherwise the `POST` is retried
while attempts remain. -/
def retryLoop (post : Nat → Option UploadError) : Nat → Nat → RetryResult
  | attemptNum, 0 => .exhausted ⟨none, none, none⟩ attemptNum
  | attemptNum, remaining + 1 =>
    match post attemptNum with
    | none => .succeeded (attemptNum + 1)
    | some err =>
      match handleUploadDataChunkError err (remaining ≠ 0) with
      | .error e => .failedFatal e (attemptNum + 1)
      | .ok _ =>
        if remaining = 0 then .exhausted err (attemptNum + 1)
        else retryLoop post (attemptNum + 1) remaining

/-- `uploadDataChunk`: the batch `POST` under the retry policy above. -/
def uploadDataChunk (post : Nat → Option UploadError) : RetryResult :=
  retryLoop post 0 uploadDataChunkRetryOptions.maxAttempts

/-- A response that is both an upload-too-large error (HTTP 413) and
carries the `JOB_NOT_AWAITING_UPLOADS` application error code. -/
def tooLargeJobEndedError : UploadError :=
  { code := none, responseStatus := some 413,
    responseErrorData := some ⟨"JOB_NOT_AWAITING_UPLOADS", "job has ended"⟩ }

/-- Counterexample to C6 as stated: a 413 response whose body carries
`JOB_NOT_AWAITING_UPLOADS` does not stop the retry loop — the
too-large branch wins, the handler shrinks and returns normally, and
the upload is retried to exhaustion instead of failing fatally. -/
theorem jobEnded_with_413_keeps_retrying :
    handleUploadDataChunkError tooLargeJobEndedError true =
      .ok { shrankRawData := true, warned := true } ∧
    uploadDataChunk (fun _ => some tooLargeJobEndedError) =
      .exhausted tooLargeJobEndedError 5 :=
  ⟨rfl, rfl⟩

/-- C6 (amended): when the response body carries
`JOB_NOT_AWAITING_UPLOADS` and the error is not an upload-too-large
error, the first failing attempt stops retrying with a fatal
`INTEGRATION_UPLOAD_AFTER_JOB_ENDED`; errors whose handler returns
normally are retried up to the 5-attempt, 200 ms initial delay,
factor-1.05 policy. -/
theorem uploadDataChunk_jobEnded_fatal
    (err : UploadError)
    (hnotLarge : isRequestUploadTooLargeError err = false)
    (hcode : (getSystemErrorResponseData err).map (fun d => d.code) =
      some "JOB_NOT_AWAITING_UPLOADS") :
    (∀ b, handleUploadDataChunkError err b =
      .error { code := "INTEGRATION_UPLOAD_AFTER_JOB_ENDED", fatal := true,
               message := "Failed to upload integration data because job has already ended" }) ∧
    (∀ post : Nat → Option UploadError, post 0 = some err →
      uploadDataChunk post =
        .failedFatal { code := "INTEGRATION_UPLOAD_AFTER_JOB_ENDED", fatal := true,
                       message := "Failed to upload integration data because job has already ended" } 1) ∧
    (∀ err' : UploadError, (∀ b, ∃ o, handleUploadDataChunkError err' b = .ok o) →
      uploadDataChunk (fun _ => some err') = .exhausted err' 5) ∧
    uploadDataChunkRetryOptions = ⟨5, 200, 21 / 20⟩ := by
  have hhandle : ∀ b, handleUploadDataChunkError err b =
      .error { code := "INTEGRATION_UPLOAD_AFTER_JOB_ENDED", fatal := true,
               message := "Failed to upload integration data because job has already ended" } := by
    intro b
    simp [handleUploadDataChunkError, hnotLarge, hcode]
  refine ⟨hhandle, ?_, ?_, rfl⟩
  · intro post hpost
    simp [uploadDataChunk, uploadDataChunkRetryOptions, retryLoop, hpost, hhandle]
  · intro err' hok
    obtain ⟨ot, ht⟩ := hok true
    obtain ⟨of, hf⟩ := hok false
    show retryLoop (fun _ => some err') 0 5 = .exhausted err' 5
    simp [retryLoop, ht, hf]

/-- Witness for C6 (amended) at a concrete non-413
`JOB_NOT_AWAITING_UPLOADS` response. -/
theorem uploadDataChunk_jobEnded_fatal_witness :
    isRequestUploadTooLargeError
      ⟨none, none, some ⟨"JOB_NOT_AWAITING_UPLOADS", "job has ended"⟩⟩ = false ∧
    uploadDataChunk
      (fun _ => some ⟨none, none, some ⟨"JOB_NOT_AWAITING_UPLOADS", "job has ended"⟩⟩) =
      .failedFatal { code := "INTEGRATION_UPLOAD_AFTER_JOB_ENDED", fatal := true,
                     message := "Failed to upload integration data because job has already ended" } 1 :=
  ⟨rfl,
   (uploadDataChunk_jobEnded_fatal
      ⟨none, none, some ⟨"JOB_NOT_AWAITING_UPLOADS", "job has ended"⟩⟩ rfl rfl).2.1 _ rfl⟩

/-! ## `synchronizeCollectedData` ordering (event queue vs. finalize)

The function's control flow is

```
const jobContext = await initiateSynchronization(input);
const eventPublishingQueue = createEventPublishingQueue(jobContext);
jobContext.logger.on('event', e => eventPublishingQueue.enqueue(e));
try {
  await uploadCollectedData(jobContext);
  return await finalizeSynchronization({...});
} catch (err) {
  jobContext.logger.error(...);
  try { await abortSynchronization(...) } catch (e) { log; throw e; }
  throw err;
} finally {
  await eventPublishingQueue.onIdle();
}
```

modelled as the ordered list of awaited operations for each
success/failure combination. -/

/-- The awaited operations of `synchronizeCollectedData`, in program
order. -/
inductive SyncAction where
  | initiateJob : SyncAction
  | attachEventQueue : SyncAction
  | uploadCollectedData : SyncAction
  | finalizePost : SyncAction
  | logError : SyncAction
  | abortPost : SyncAction
  | drainEventQueue : SyncAction
deriving DecidableEq

/-- The trace of `synchronizeCollectedData` as a function of which
awaited calls succeed.  The `finally` block (`await
eventPublishingQueue.onIdle()`) runs after the `try`/`catch` completes
— in particular after `finalizeSynchronization` has returned — and
before the function itself returns. -/
def synchronizeCollectedData (uploadOk finalizeOk abortOk : Bool) : List SyncAction :=
  [.initiateJob, .attachEventQueue] ++
  (if uploadOk then
    [.uploadCollectedData] ++
    (if finalizeOk then [.finalizePost]
     else [.finalizePost, .logError, .abortPost] ++ (if abortOk then [] else [.logError]))
   else
    [.uploadCollectedData, .logError, .abortPost] ++ (if abortOk then [] else [.logError]))
  ++ [.drainEventQueue]

/-- Counterexample to C7 as stated: on the successful run, the finalize
`POST` completes strictly before the event queue is drained, so the
queue is not "fully drained before the finalize call returns". -/
theorem finalize_returns_before_drain :
    (synchronizeCollectedData true true true).indexOf SyncAction.finalizePost <
      (synchronizeCollectedData true true true).indexOf SyncAction.drainEventQueue ∧
    ¬ ((synchronizeCollectedData true true true).indexOf SyncAction.drainEventQueue <
        (synchronizeCollectedData true true true).indexOf SyncAction.finalizePost) := by
  decide

/-- C7 (amended): the event queue attached to the logger is drained in
the `finally` block on every path — after the finalize `POST` has
completed when one was issued — and the drain is the last awaited
operation before `synchronizeCollectedData` returns. -/
theorem drain_last_before_return (uploadOk finalizeOk abortOk : Bool) :
    (synchronizeCollectedData uploadOk finalizeOk abortOk).getLast? =
      some SyncAction.drainEventQueue ∧
    SyncAction.drainEventQueue ∈ synchronizeCollectedData uploadOk finalizeOk abortOk ∧
    (SyncAction.finalizePost ∈ synchronizeCollectedData uploadOk finalizeOk abortOk →
      (synchronizeCollectedData uploadOk finalizeOk abortOk).indexOf SyncAction.finalizePost <
        (synchronizeCollectedData uploadOk finalizeOk abortOk).indexOf
          SyncAction.drainEventQueue) := by
  cases uploadOk <;> cases finalizeOk <;> cases abortOk <;> decide

/-- Witness for C7 (amended) on the successful run. -/
theorem drain_last_before_return_witness :
    (synchronizeCollectedData true true true).getLast? = some SyncAction.drainEventQueue ∧
    (synchronizeCollectedData true true true).indexOf SyncAction.finalizePost <
      (synchronizeCollectedData true true true).indexOf SyncAction.drainEventQueue :=
  ⟨(drain_last_before_return true true true).1,
   (drain_last_before_return true true true).2.2 (by decide)⟩

/-! ## Raw-data shrinking (`shrinkRawData`)

`shrinkRawData(data, logger, maxSize = UPLOAD_SIZE_MAX)` tracks a
running `totalSize` initialized to `Buffer.byteLength(JSON.stringify(data))`
and, while it exceeds `maxSize`, truncates the largest raw-data field
of the largest entity.  The JavaScript `for…in`/indexing idioms are
modelled by `jsKeys`/`jsMember`; a `TypeError` (indexing or assigning
through `undefined`) is modelled as `none`/`crash`. -/

/-- A JavaScript property key as used by `for…in` and indexing: an
array index or an object field name. -/
inductive JKey where
  | idx (n : Nat) : JKey
  | fld (s : String) : JKey
deriving DecidableEq

/-- First-match field lookup in an object (JavaScript objects cannot
have duplicate keys, so first-match is exact). -/
def lookupField : List (String × Json) → String → Option Json
  | [], _ => none
  | (k', v) :: fs, k => if k' = k then some v else lookupField fs k

/-- `j[k]` on a defined value; `none` models `undefined`. -/
def jsMember : Json → JKey → Option Json
  | .arr xs, .idx n => xs[n]?
  | .obj fs, .fld k => lookupField fs k
  | _, _ => none

/-- The keys enumerated by `for (const k in j)`: array indices in
order, object fields in insertion order, nothing for primitives. -/
def jsKeys : Json → List JKey
  | .arr xs => (List.range xs.length).map .idx
  | .obj fs => fs.map (fun kv => .fld kv.1)
  | _ => []

/-- `for…in` over a possibly-`undefined` value (JavaScript iterates
nothing over `undefined`). -/
def optKeys : Option Json → List JKey
  | some j => jsKeys j
  | none => []

/-- Indexing whose base may be `undefined` — but here the base is
defined; `jsMemberOpt none _` is only used where the result feeds a
size (JavaScript would not reach the access). -/
def jsMemberOpt : Option Json → JKey → Option Json
  | some j, k => jsMember j k
  | none, _ => none

/-- JavaScript truthiness of a JSON value. -/
def jsTruthy : Json → Bool
  | .null => false
  | .bool b => b
  | .num n => n != 0
  | .str s => !(s == "")
  | .arr _ => true
  | .obj _ => true

/-- `JSON.stringify(v).length`, with 0 for an absent value. -/
def sizeOfOpt : Option Json → Nat
  | some v => sLen v
  | none => 0

/-- `v ? JSON.stringify(v).length : 0` — the measure of the innermost
selection loop, which skips falsy fields. -/
def truthySize : Option Json → Nat
  | some v => if jsTruthy v then sLen v else 0
  | none => 0

/-- The `largest…Key`/`largest…Size` accumulator pattern of
`shrinkRawData`'s three selection loops: start from `('', 0)` and keep
the first key whose size strictly exceeds the best so far. -/
def bestKey (keys : List JKey) (size : JKey → Nat) : Option JKey × Nat :=
  keys.foldl (fun acc k => if size k > acc.2 then (some k, size k) else acc) (none, 0)

/-- `j[k] = v` as a functional update (no-op on primitives). -/
def jsSet : Json → JKey → Json → Json
  | .arr xs, .idx n, v => .arr (xs.set n v)
  | .obj fs, .fld k, v => .obj (setField fs k v)
  | j, _, _ => j

/-- A selection result used as a key: an unset `largest…Key` is the
empty string `''`. -/
def keyOf (k : Option JKey) : JKey := k.getD (.fld "")

/-- One iteration of `shrinkRawData`'s `while` body: select the
largest entity, its largest `_rawData` entry, and that entry's largest
(truthy) `rawData` field; write `'TRUNCATED'` there.  Returns the
updated batch and `largestItemSize`; `none` models a thrown
`TypeError` (indexing or assigning through `undefined`). -/
def shrinkOnce (data : List Json) : Option (List Json × Nat) :=
  let dataJ := Json.arr data
  let eSel := bestKey (jsKeys dataJ) (fun k => sizeOfOpt (jsMember dataJ k))
  match eSel.1 with
  | none => none
  | some eK =>
    match jsMember dataJ eK with
    | none => none
    | some e =>
      let rdOpt := jsMember e (.fld "_rawData")
      let rSel := bestKey (optKeys rdOpt) (fun k => sizeOfOpt (jsMemberOpt rdOpt k))
      match rdOpt with
      | none => none
      | some rd =>
        match jsMember rd (keyOf rSel.1) with
        | none => none
        | some entry =>
          let rawOpt := jsMember entry (.fld "rawData")
          let iSel := bestKey (optKeys rawOpt) (fun k => truthySize (jsMemberOpt rawOpt k))
          match rawOpt with
          | none => none
          | some raw =>
            let raw2 := jsSet raw (keyOf iSel.1) (.str "TRUNCATED")
            let entry2 := jsSet entry (.fld "rawData") raw2
            let rd2 := jsSet rd (keyOf rSel.1) entry2
            let e2 := jsSet e (.fld "_rawData") rd2
            let data2 := match eK with
              | .idx n => data.set n e2
              | .fld _ => data
            some (data2, iSel.2)

/-- `Buffer.byteLength("'TRUNCATED'")` — note the surrounding single
quotes: 11 bytes, while the written value serializes as
`"TRUNCATED"`, also 11 characters. -/
def sizeOfTruncated : Nat := byteLen "\x27TRUNCATED\x27"

/-- Result of running `shrinkRawData`'s loop with bounded fuel.  The
source has no abort path: `outOfFuel` means the `while` loop was still
running after `fuel` iterations, `crash` a thrown `TypeError`. -/
inductive ShrinkResult where
  | ok (data : List Json) (totalSize : Int) (itemsRemoved : Nat) : ShrinkResult
  | crash : ShrinkResult
  | outOfFuel : ShrinkResult

/-- The `while (totalSize > maxSize)` loop: each pass truncates one
field and updates `totalSize = totalSize - largestItemSize +
sizeOfTruncated` without re-serializing the batch. -/
def shrinkLoop (maxSize : Int) (fuel : Nat) (data : List Json) (totalSize : Int)
    (itemsRemoved : Nat) : ShrinkResult :=
  if totalSize > maxSize then
    match fuel, shrinkOnce data with
    | 0, _ => .outOfFuel
    | _ + 1, none => .crash
    | fuel + 1, some (data2, removed) =>
      shrinkLoop maxSize fuel data2 (totalSize - removed + sizeOfTruncated) (itemsRemoved + 1)
  else .ok data totalSize itemsRemoved

/-- `shrinkRawData(data, logger, maxSize)`: `totalSize` starts at
`Buffer.byteLength(JSON.stringify(data))`. -/
def shrinkRawData (fuel : Nat) (data : List Json) (maxSize : Int) : ShrinkResult :=
  shrinkLoop maxSize fuel data (byteLen (stringifyJ (Json.arr data))) 0

/-! ### Properties of the selection accumulator -/

theorem bestKey_le_init (size : JKey → Nat) (keys : List JKey) (init : Option JKey × Nat) :
    init.2 ≤ (keys.foldl (fun acc k => if size k > acc.2 then (some k, size k) else acc) init).2 := by
  induction keys generalizing init with
  | nil => exact Nat.le_refl _
  | cons k ks ih =>
    simp only [List.foldl_cons]
    by_cases h : size k > init.2
    · rw [if_pos h]
      exact Nat.le_trans (Nat.le_of_lt h) (ih ((some k, size k)))
    · rw [if_neg h]
      exact ih init

theorem bestKey_max_aux (size : JKey → Nat) (keys : List JKey) (init : Option JKey × Nat) :
    ∀ k ∈ keys, size k ≤
      (keys.foldl (fun acc k => if size k > acc.2 then (some k, size k) else acc) init).2 := by
  induction keys generalizing init with
  | nil => simp
  | cons k ks ih =>
    intro k' hk'
    simp only [List.foldl_cons]
    rcases List.mem_cons.mp hk' with rfl | h
    · by_cases h : size k' > init.2
      · rw [if_pos h]
        exact bestKey_le_init size ks (some k', size k')
      · rw [if_neg h]
        exact Nat.le_trans (Nat.le_of_not_lt h) (bestKey_le_init size ks init)
    · by_cases hc : size k > init.2 <;> [rw [if_pos hc]; rw [if_neg hc]] <;> exact ih _ k' h

/-- Every enumerated key's size is bounded by the selected best size. -/
theorem bestKey_max (size : JKey → Nat) (keys : List JKey) :
    ∀ k ∈ keys, size k ≤ (bestKey keys size).2 :=
  bestKey_max_aux size keys (none, 0)

theorem bestKey_some_aux (size : JKey → Nat) (keys : List JKey) (init : Option JKey × Nat)
    (k : JKey) :
    (keys.foldl (fun acc k => if size k > acc.2 then (some k, size k) else acc) init).1 = some k →
      (k ∈ keys ∧ size k =
        (keys.foldl (fun acc k => if size k > acc.2 then (some k, size k) else acc) init).2) ∨
      (init.1 = some k ∧ init.2 =
        (keys.foldl (fun acc k => if size k > acc.2 then (some k, size k) else acc) init).2) := by
  induction keys generalizing init with
  | nil => exact fun h => Or.inr ⟨h, rfl⟩
  | cons k' ks ih =>
    intro h
    simp only [List.foldl_cons] at h ⊢
    by_cases hc : size k' > init.2
    · rw [if_pos hc] at h ⊢
      rcases ih (some k', size k') h with ⟨hm, hs⟩ | ⟨he, hs⟩
      · exact Or.inl ⟨List.mem_cons_of_mem _ hm, hs⟩
      · obtain rfl : k' = k := Option.some_inj.mp he
        exact Or.inl ⟨List.mem_cons_self _ _, hs⟩
    · rw [if_neg hc] at h ⊢
      rcases ih init h with ⟨hm, hs⟩ | ⟨he, hs⟩
      · exact Or.inl ⟨List.mem_cons_of_mem _ hm, hs⟩
      · exact Or.inr ⟨he, hs⟩

/-- A selected key was enumerated, and its size is the selected size. -/
theorem bestKey_some (size : JKey → Nat) (keys : List JKey) (k : JKey)
    (h : (bestKey keys size).1 = some k) :
    k ∈ keys ∧ size k = (bestKey keys size).2 := by
  rcases bestKey_some_aux size keys (none, 0) k h with hres | ⟨he, -⟩
  · exact hres
  · exact absurd he (by simp)

theorem bestKey_stable (size : JKey → Nat) (keys : List JKey) (init : Option JKey × Nat)
    (h : ∀ k ∈ keys, size k ≤ init.2) :
    keys.foldl (fun acc k => if size k > acc.2 then (some k, size k) else acc) init = init := by
  induction keys with
  | nil => rfl
  | cons k ks ih =>
    simp only [List.foldl_cons]
    rw [if_neg (Nat.not_lt.mpr (h k (List.mem_cons_self k ks)))]
    exact ih (fun k' hk' => h k' (List.mem_cons_of_mem k hk'))

/-- When the head already attains the (positive) maximum, the head is
selected with its size. -/
theorem bestKey_const_head (size : JKey → Nat) (k0 : JKey) (ks : List JKey) (c : Nat)
    (hc : 0 < c) (h0 : size k0 = c) (hks : ∀ k ∈ ks, size k ≤ c) :
    bestKey (k0 :: ks) size = (some k0, c) := by
  unfold bestKey
  simp only [List.foldl_cons]
  rw [if_pos (by simpa [h0] using hc)]
  rw [h0]
  exact bestKey_stable size ks (some k0, c) hks

theorem bestKey_some_persists (size : JKey → Nat) (keys : List JKey)
    (init : Option JKey × Nat) (h : init.1.isSome) :
    ((keys.foldl (fun acc k => if size k > acc.2 then (some k, size k) else acc) init).1).isSome := by
  induction keys generalizing init with
  | nil => exact h
  | cons k ks ih =>
    simp only [List.foldl_cons]
    by_cases hc : size k > init.2
    · rw [if_pos hc]
      exact ih (some k, size k) rfl
    · rw [if_neg hc]
      exact ih init h

theorem bestKey_none_aux (size : JKey → Nat) (keys : List JKey) (init : Option JKey × Nat)
    (h : (keys.foldl (fun acc k => if size k > acc.2 then (some k, size k) else acc) init).1
      = none) :
    keys.foldl (fun acc k => if size k > acc.2 then (some k, size k) else acc) init = init := by
  induction keys generalizing init with
  | nil => rfl
  | cons k ks ih =>
    simp only [List.foldl_cons] at h ⊢
    by_cases hc : size k > init.2
    · rw [if_pos hc] at h
      have := bestKey_some_persists size ks (some k, size k) rfl
      rw [h] at this
      exact absurd this (by simp)
    · rw [if_neg hc] at h ⊢
      exact ih init h

/-- If no key was selected, every enumerated key has size 0. -/
theorem bestKey_none (size : JKey → Nat) (keys : List JKey)
    (h : (bestKey keys size).1 = none) : ∀ k ∈ keys, size k = 0 := by
  intro k hk
  have hmax := bestKey_max size keys k hk
  have heq := bestKey_none_aux size keys (none, 0) h
  unfold bestKey at hmax
  rw [heq] at hmax
  exact Nat.le_zero.mp hmax

theorem lookupField_mem (fs : List (String × Json)) (k : String) (v : Json)
    (h : lookupField fs k = some v) : JKey.fld k ∈ jsKeys (.obj fs) := by
  induction fs with
  | nil => exact absurd h (by simp [lookupField])
  | cons f fs ih =>
    rw [lookupField] at h
    by_cases hk : f.1 = k
    · simp [jsKeys, hk]
    · rw [if_neg hk] at h
      simpa [jsKeys] using Or.inr (by simpa [jsKeys] using ih h)

/-- C4 (amended): while the tracked size exceeds `UPLOAD_SIZE_MAX =
6275072`, each iteration picks the entity with the largest JSON
serialization, within it the `_rawData` entry with the largest
serialization, within that entry's `rawData` object the field with the
largest serialized value *among truthy fields* (falsy fields count as
size 0), writes the string `"TRUNCATED"` there, and continues with the
running size `totalSize - largestItemSize + byteLen "'TRUNCATED'"`,
never re-serializing the batch. -/
theorem shrinkRawData_iteration_spec
    (data : List Json) (total : Int) (fuel itemsRemoved : Nat) (d2 : List Json) (sz : Nat)
    (hguard : total > (UPLOAD_SIZE_MAX : Int))
    (hstep : shrinkOnce data = some (d2, sz)) :
    shrinkLoop UPLOAD_SIZE_MAX (fuel + 1) data total itemsRemoved =
      shrinkLoop UPLOAD_SIZE_MAX fuel d2 (total - sz + sizeOfTruncated) (itemsRemoved + 1) ∧
    sizeOfTruncated = 11 ∧
    ∃ (n : Nat) (e rd : Json) (rK : JKey) (entry raw : Json) (iK : JKey),
      data[n]? = some e ∧
      (∀ (m : Nat) (e2 : Json), data[m]? = some e2 → sLen e2 ≤ sLen e) ∧
      jsMember e (.fld "_rawData") = some rd ∧
      jsMember rd rK = some entry ∧
      (∀ k ∈ jsKeys rd, sizeOfOpt (jsMember rd k) ≤ sLen entry) ∧
      jsMember entry (.fld "rawData") = some raw ∧
      (∀ k ∈ jsKeys raw, truthySize (jsMember raw k) ≤ sz) ∧
      truthySize (jsMember raw iK) = sz ∧
      d2 = data.set n (jsSet e (.fld "_rawData") (jsSet rd rK
        (jsSet entry (.fld "rawData") (jsSet raw iK (.str "TRUNCATED"))))) := by
  refine ⟨?_, by decide, ?_⟩
  · rw [shrinkLoop.eq_def]
    simp only [if_pos hguard, hstep]
  · simp only [shrinkOnce] at hstep
    split at hstep
    · exact absurd hstep (by simp)
    next eK heSel =>
    split at hstep
    · exact absurd hstep (by simp)
    next e heMem =>
    split at hstep
    · exact absurd hstep (by simp)
    next rd hrd =>
    split at hstep
    · exact absurd hstep (by simp)
    next entry hentry =>
    split at hstep
    · exact absurd hstep (by simp)
    next raw hraw =>
    rw [hrd] at hentry hstep
    rw [hraw] at hstep
    obtain ⟨heKmem, heKsize⟩ := bestKey_some _ _ eK heSel
    simp only [jsKeys, List.mem_map, List.mem_range] at heKmem
    obtain ⟨n, hn, rfl⟩ := heKmem
    have hget : data[n]? = some e := heMem
    have hpair := Option.some_inj.mp hstep
    have hd2 : data.set n (jsSet e (.fld "_rawData")
        (jsSet rd (keyOf (bestKey (optKeys (some rd))
            fun k => sizeOfOpt (jsMemberOpt (some rd) k)).1)
          (jsSet entry (.fld "rawData")
            (jsSet raw (keyOf (bestKey (optKeys (some raw))
                fun k => truthySize (jsMemberOpt (some raw) k)).1)
              (.str "TRUNCATED"))))) = d2 := congrArg Prod.fst hpair
    have hsz : (bestKey (optKeys (some raw))
        fun k => truthySize (jsMemberOpt (some raw) k)).2 = sz := congrArg Prod.snd hpair
    have hesize : sizeOfOpt (some e) =
        (bestKey (jsKeys (Json.arr data)) fun k => sizeOfOpt (jsMember (Json.arr data) k)).2 := by
      rw [← heKsize]
      show sizeOfOpt (some e) = sizeOfOpt (data[n]?)
      rw [hget]
    have hemax : ∀ (m : Nat) (e2 : Json), data[m]? = some e2 → sLen e2 ≤ sLen e := by
      intro m e2 hm
      have hmlt : m < data.length := by
        by_contra hge
        rw [List.getElem?_eq_none (Nat.le_of_not_lt hge)] at hm
        exact absurd hm (by simp)
      have hkm : JKey.idx m ∈ jsKeys (Json.arr data) :=
        List.mem_map.mpr ⟨m, List.mem_range.mpr hmlt, rfl⟩
      have hb := bestKey_max (fun k => sizeOfOpt (jsMember (Json.arr data) k))
        (jsKeys (Json.arr data)) (.idx m) hkm
      rw [← hesize] at hb
      have hb2 : sizeOfOpt (data[m]?) ≤ sizeOfOpt (some e) := hb
      rw [hm] at hb2
      exact hb2
    have hrdlevel : ∃ rK, jsMember rd rK = some entry ∧
        (∀ k ∈ jsKeys rd, sizeOfOpt (jsMember rd k) ≤ sLen entry) ∧
        rK = keyOf (bestKey (optKeys (some rd))
          fun k => sizeOfOpt (jsMemberOpt (some rd) k)).1 := by
      rcases hr : (bestKey (optKeys (some rd))
          fun k => sizeOfOpt (jsMemberOpt (some rd) k)).1 with _ | rK
      · rw [hr] at hentry
        refine ⟨.fld "", hentry, ?_, rfl⟩
        intro k hk
        have h0 := bestKey_none _ _ hr k hk
        have h0' : sizeOfOpt (jsMember rd k) = 0 := h0
        rw [h0']
        exact Nat.zero_le _
      · obtain ⟨hmem, hs⟩ := bestKey_some _ _ rK hr
        rw [hr] at hentry
        have hentry' : jsMember rd rK = some entry := hentry
        refine ⟨rK, hentry', ?_, rfl⟩
        intro k hk
        have hb := bestKey_max (fun k => sizeOfOpt (jsMemberOpt (some rd) k))
          (optKeys (some rd)) k hk
        rw [← hs] at hb
        have hs' : sizeOfOpt (jsMemberOpt (some rd) rK) = sLen entry := by
          show sizeOfOpt (jsMember rd rK) = sLen entry
          rw [hentry']
          rfl
        rw [hs'] at hb
        exact hb
    have hfldlevel : ∃ iK, (∀ k ∈ jsKeys raw, truthySize (jsMember raw k) ≤ sz) ∧
        truthySize (jsMember raw iK) = sz ∧
        iK = keyOf (bestKey (optKeys (some raw))
          fun k => truthySize (jsMemberOpt (some raw) k)).1 := by
      rcases hi : (bestKey (optKeys (some raw))
          fun k => truthySize (jsMemberOpt (some raw) k)).1 with _ | iK
      · have heq := bestKey_none_aux (fun k => truthySize (jsMemberOpt (some raw) k))
          (optKeys (some raw)) (none, 0) hi
        have hz : (bestKey (optKeys (some raw))
            fun k => truthySize (jsMemberOpt (some raw) k)).2 = 0 := by
          unfold bestKey
          rw [heq]
        have hsz0 : sz = 0 := by rw [← hsz, hz]
        refine ⟨.fld "", ?_, ?_, rfl⟩
        · intro k hk
          have h0 := bestKey_none _ _ hi k hk
          have h0' : truthySize (jsMember raw k) = 0 := h0
          rw [h0', hsz0]
        · rw [hsz0]
          rcases hv : jsMember raw (.fld "") with _ | v
          · rfl
          · cases raw with
            | obj fs =>
              have hkm : JKey.fld "" ∈ jsKeys (.obj fs) := lookupField_mem fs "" v hv
              have h0 := bestKey_none _ _ hi (.fld "") hkm
              have h0' : truthySize (jsMember (Json.obj fs) (.fld "")) = 0 := h0
              rw [hv] at h0'
              exact h0'
            | null => exact absurd hv (by simp [jsMember])
            | bool b => exact absurd hv (by simp [jsMember])
            | num m => exact absurd hv (by simp [jsMember])
            | str s => exact absurd hv (by simp [jsMember])
            | arr xs => exact absurd hv (by simp [jsMember])
      · obtain ⟨hmem, hs⟩ := bestKey_some _ _ iK hi
        refine ⟨iK, ?_, ?_, rfl⟩
        · intro k hk
          have hb := bestKey_max (fun k => truthySize (jsMemberOpt (some raw) k))
            (optKeys (some raw)) k hk
          rw [hsz] at hb
          exact hb
        · have hs' : truthySize (jsMember raw iK) =
              (bestKey (optKeys (some raw)) fun k => truthySize (jsMemberOpt (some raw) k)).2 := hs
          rw [hsz] at hs'
          exact hs'
    obtain ⟨rK, hentryK, hrdmax, hrKeq⟩ := hrdlevel
    obtain ⟨iK, himax, hisz, hiKeq⟩ := hfldlevel
    exact ⟨n, e, rd, rK, entry, raw, iK, hget, hemax, hrd, hentryK, hrdmax, hraw, himax, hisz,
      by rw [hrKeq, hiKeq]; exact hd2.symm⟩

/-- An entity whose `rawData` holds a falsy field `a` (serialized
`false`, 5 characters) and a truthy field `b` (serialized `true`, 4
characters). -/
def truthySkewEntity : Json :=
  .obj [("_rawData", .arr [.obj [("rawData",
    .obj [("a", .bool false), ("b", .bool true)])]])]

/-- `truthySkewEntity` after one shrink iteration: the smaller but
truthy field `b` was truncated, the larger falsy field `a` kept. -/
def truthySkewEntityAfter : Json :=
  .obj [("_rawData", .arr [.obj [("rawData",
    .obj [("a", .bool false), ("b", .str "TRUNCATED")])]])]

/-- Counterexample to C4 as stated: the innermost selection loop
guards each candidate with JavaScript truthiness
(`data[..][item] ? JSON.stringify(..).length : 0`), so the field whose
serialized value is largest (`a`, 5 characters of `false`) is *not*
selected; the smaller truthy field `b` is truncated instead, and the
running size is reduced by 4, not 5. -/
theorem shrink_skips_largest_falsy_field :
    sLen (Json.bool false) = 5 ∧ sLen (Json.bool true) = 4 ∧
    shrinkOnce [truthySkewEntity] = some ([truthySkewEntityAfter], 4) :=
  ⟨rfl, rfl, rfl⟩

/-- Witness for C4 (amended) at the `truthySkewEntity` batch with a
tracked size just over the limit. -/
theorem shrinkRawData_iteration_spec_witness :
    ((6275073 : Int) > (UPLOAD_SIZE_MAX : Int)) ∧
    shrinkLoop UPLOAD_SIZE_MAX (0 + 1) [truthySkewEntity] 6275073 0 =
      shrinkLoop UPLOAD_SIZE_MAX 0 [truthySkewEntityAfter] (6275073 - 4 + sizeOfTruncated) (0 + 1) :=
  ⟨by decide,
   (shrinkRawData_iteration_spec [truthySkewEntity] 6275073 0 0 [truthySkewEntityAfter] 4
      (by decide) rfl).1⟩

/-! ### Non-termination of `shrinkRawData` on un-shrinkable batches -/

/-- An entity whose only raw-data field is already the string
`"TRUNCATED"`: truncating it changes nothing and frees 0 bytes. -/
def truncatedEntity : Json :=
  .obj [("_rawData", .arr [.obj [("rawData", .obj [("f", .str "TRUNCATED")])]])]

/-- 150000 copies of `truncatedEntity`: serialized size 6750001 bytes,
above `UPLOAD_SIZE_MAX`, yet nothing can shrink. -/
def cannotShrinkBatch : List Json :=
  truncatedEntity :: List.replicate 149999 truncatedEntity

/-- `shrinkRawData` runs out of any amount of fuel on `data`: the
`while` loop never exits. -/
def shrinkRawDataDiverges (data : List Json) (maxSize : Int) : Prop :=
  ∀ fuel, shrinkRawData fuel data maxSize = ShrinkResult.outOfFuel

theorem replicate_getElem? {α : Type} (a : α) : ∀ (n m : Nat), m < n →
    (List.replicate n a)[m]? = some a
  | 0, m, h => absurd h (Nat.not_lt_zero m)
  | n + 1, 0, _ => by rw [List.replicate_succ]; exact List.getElem?_cons_zero
  | n + 1, m + 1, h => by
    rw [List.replicate_succ, List.getElem?_cons_succ]
    exact replicate_getElem? a n m (Nat.lt_of_succ_lt_succ h)

/-- On a batch of identical maximal entities, one shrink pass selects
the first entity and — here — rewrites the already-truncated field
with its own value: a fixed point that frees `sLen "TRUNCATED" = 11`. -/
theorem shrinkOnce_cannotShrink (n : Nat) :
    shrinkOnce (truncatedEntity :: List.replicate n truncatedEntity) =
      some (truncatedEntity :: List.replicate n truncatedEntity, 11) := by
  have hkeys : jsKeys (Json.arr (truncatedEntity :: List.replicate n truncatedEntity)) =
      .idx 0 :: (List.range n).map (fun m => JKey.idx (m + 1)) := by
    show (List.range (truncatedEntity :: List.replicate n truncatedEntity).length).map JKey.idx
      = _
    rw [show (truncatedEntity :: List.replicate n truncatedEntity).length = n + 1 by
        simp [List.length_replicate],
      List.range_succ_eq_map, List.map_cons, List.map_map]
    rfl
  have hsel : bestKey (jsKeys (Json.arr (truncatedEntity :: List.replicate n truncatedEntity)))
      (fun k => sizeOfOpt (jsMember
        (Json.arr (truncatedEntity :: List.replicate n truncatedEntity)) k)) =
      (some (.idx 0), 44) := by
    rw [hkeys]
    apply bestKey_const_head _ _ _ 44 (by decide)
    · show sizeOfOpt ((truncatedEntity :: List.replicate n truncatedEntity)[0]?) = 44
      rw [List.getElem?_cons_zero]
      decide
    · intro k hk
      simp only [List.mem_map, List.mem_range] at hk
      obtain ⟨m, hm, rfl⟩ := hk
      show sizeOfOpt ((truncatedEntity :: List.replicate n truncatedEntity)[m + 1]?) ≤ 44
      rw [List.getElem?_cons_succ, replicate_getElem? truncatedEntity n m hm]
      decide
  have hm0 : jsMember (Json.arr (truncatedEntity :: List.replicate n truncatedEntity))
      (.idx 0) = some truncatedEntity := by
    show (truncatedEntity :: List.replicate n truncatedEntity)[0]? = some truncatedEntity
    rw [List.getElem?_cons_zero]
  simp only [shrinkOnce, hsel, hm0]
  rfl

theorem stringifyArr_replicate (j : Json) : ∀ n : Nat,
    stringifyArr (List.replicate n j) = List.replicate n (stringifyJ j)
  | 0 => rfl
  | n + 1 => by
    rw [List.replicate_succ, List.replicate_succ, stringifyArr, stringifyArr_replicate j n]

theorem byteLen_append (s t : String) : byteLen (s ++ t) = byteLen s + byteLen t := by
  simp [byteLen, String.data_append]

theorem byteLen_commaJoin_replicate (s : String) : ∀ n : Nat,
    byteLen (commaJoin (s :: List.replicate n s)) = (n + 1) * byteLen s + n
  | 0 => by simp [commaJoin]
  | n + 1 => by
    rw [List.replicate_succ, show commaJoin (s :: s :: List.replicate n s) =
        s ++ "," ++ commaJoin (s :: List.replicate n s) from rfl,
      byteLen_append, byteLen_append, byteLen_commaJoin_replicate s n]
    have h1 : byteLen "," = 1 := by decide
    rw [h1]
    ring

/-- The serialized size of the 150000-entity batch. -/
theorem cannotShrinkBatch_size :
    byteLen (stringifyJ (Json.arr cannotShrinkBatch)) = 6750001 := by
  show byteLen ("[" ++ commaJoin (stringifyArr
    (truncatedEntity :: List.replicate 149999 truncatedEntity)) ++ "]") = 6750001
  rw [show stringifyArr (truncatedEntity :: List.replicate 149999 truncatedEntity) =
      stringifyJ truncatedEntity :: List.replicate 149999 (stringifyJ truncatedEntity) by
    rw [stringifyArr, stringifyArr_replicate truncatedEntity 149999]]
  rw [byteLen_append, byteLen_append, byteLen_commaJoin_replicate]
  have h1 : byteLen "[" = 1 := by decide
  have h2 : byteLen "]" = 1 := by decide
  have h3 : byteLen (stringifyJ truncatedEntity) = 44 := by decide
  rw [h1, h2, h3]

/-- C3 fails on the code: `shrinkRawData` has no `CANNOT_SHRINK` abort
(the result type of the model has no such outcome because the source
has no such path), and on a batch over the size limit whose largest
raw-data field is already `"TRUNCATED"`, every iteration is a fixed
point that frees exactly the 11 bytes it re-adds, so the loop never
terminates: it exhausts any fuel bound. -/
theorem shrinkRawData_cannotShrink_loops_forever :
    shrinkOnce cannotShrinkBatch = some (cannotShrinkBatch, sizeOfTruncated) ∧
    shrinkRawDataDiverges cannotShrinkBatch UPLOAD_SIZE_MAX := by
  refine ⟨shrinkOnce_cannotShrink 149999, ?_⟩
  have hguard : (6750001 : Int) > (UPLOAD_SIZE_MAX : Int) := by decide
  have hfix : shrinkOnce cannotShrinkBatch = some (cannotShrinkBatch, 11) :=
    shrinkOnce_cannotShrink 149999
  have h11 : sizeOfTruncated = 11 := by decide
  have hloop : ∀ fuel i, shrinkLoop UPLOAD_SIZE_MAX fuel cannotShrinkBatch 6750001 i =
      ShrinkResult.outOfFuel := by
    intro fuel
    induction fuel with
    | zero =>
      intro i
      rw [shrinkLoop.eq_def, if_pos hguard]
    | succ fuel ih =>
      intro i
      rw [shrinkLoop.eq_def, if_pos hguard, hfix]
      show shrinkLoop UPLOAD_SIZE_MAX fuel cannotShrinkBatch
        (6750001 - ((11 : Nat) : Int) + (sizeOfTruncated : Int)) (i + 1) =
        ShrinkResult.outOfFuel
      rw [h11]
      norm_num
      exact ih (i + 1)
  intro fuel
  unfold shrinkRawData
  rw [cannotShrinkBatch_size]
  exact hloop fuel 0

/-! ## Step execution engine

The engine (`executeIntegrationInstance`, job state, partial-dataset
aggregation) is not in the source tree — only its tests are — so it is
modelled from the specification (§4.1, §4.3, §4.5, §7) and the
expectations of the in-tree tests in `src/unnamed/part_000`. -/

/-- Terminal status of a step (`StepResultStatus`). -/
inductive StepResultStatus where
  | success : StepResultStatus
  | failure : StepResultStatus
  | partialSuccessDueToDependencyFailure : StepResultStatus
  | disabled : StepResultStatus
  | cancelled : StepResultStatus
deriving DecidableEq

/-- A step's result as recorded in `summary.json`. -/
structure StepResult where
  id : String
  declaredTypes : List String
  partialTypes : List String
  encounteredTypes : List String
  status : StepResultStatus
deriving DecidableEq

/-- First-occurrence deduplication, preserving encounter order. -/
def dedupFirst (l : List String) : List String :=
  l.foldl (fun acc t => if t ∈ acc then acc else acc ++ [t]) []

/-- Modelled from the spec: the partial-dataset aggregation over step
results.  A FAILURE or PARTIAL_SUCCESS_DUE_TO_DEPENDENCY_FAILURE step
contributes its `declaredTypes`; every step except a DISABLED one
contributes its `partialTypes` (the in-tree test "does not include
partialTypes for disabled steps" fixes the DISABLED exclusion, which
the spec sentence contradicts). -/
def determinePartialDatasets (results : List StepResult) : List String :=
  dedupFirst (results.foldl (fun acc r =>
    acc ++ ((if r.status ≠ .disabled then r.partialTypes else []) ++
      (if r.status = .failure ∨ r.status = .partialSuccessDueToDependencyFailure
       then r.declaredTypes else []))) [])

/-- The partial-dataset aggregation exactly as the C1 claim words it:
`partialTypes` of every step regardless of its status. -/
def specPartialDatasetsAllStatuses (results : List StepResult) : List String :=
  dedupFirst (results.foldl (fun acc r =>
    acc ++ (r.partialTypes ++
      (if r.status = .failure ∨ r.status = .partialSuccessDueToDependencyFailure
       then r.declaredTypes else []))) [])

/-- The step results of the in-tree test "does not include partialTypes
for disabled steps": `my-step-a` fails, `my-step-b` is disabled with a
`partial: true` declared entity. -/
def disabledStepTestResults : List StepResult :=
  [{ id := "my-step-a", declaredTypes := ["test_a"], partialTypes := [],
     encounteredTypes := [], status := .failure },
   { id := "my-step-b", declaredTypes := ["test_b"], partialTypes := ["test_b"],
     encounteredTypes := [], status := .disabled }]

/-- Counterexample to C1 as stated: at the disabled-step test's step
results, the partial datasets are `["test_a"]` — the disabled step's
`partialTypes` (`test_b`) do not contribute, although the claim's
wording (`partialTypes` of every step regardless of status) would
include `test_b`. -/
theorem disabled_partialTypes_not_included :
    determinePartialDatasets disabledStepTestResults = ["test_a"] ∧
    "test_b" ∈ specPartialDatasetsAllStatuses disabledStepTestResults ∧
    "test_b" ∉ determinePartialDatasets disabledStepTestResults := by
  decide

theorem mem_dedupFirst_aux (l : List String) :
    ∀ (acc : List String) (x : String),
      x ∈ l.foldl (fun acc t => if t ∈ acc then acc else acc ++ [t]) acc ↔ x ∈ acc ∨ x ∈ l := by
  induction l with
  | nil => simp
  | cons t l ih =>
    intro acc x
    simp only [List.foldl_cons]
    by_cases ht : t ∈ acc
    · rw [if_pos ht, ih]
      constructor
      · rintro (h | h)
        · exact Or.inl h
        · exact Or.inr (List.mem_cons_of_mem t h)
      · rintro (h | h)
        · exact Or.inl h
        · rcases List.mem_cons.mp h with rfl | h
          · exact Or.inl ht
          · exact Or.inr h
    · rw [if_neg ht, ih]
      simp only [List.mem_append, List.mem_singleton, List.mem_cons]
      tauto

theorem mem_dedupFirst (l : List String) (x : String) : x ∈ dedupFirst l ↔ x ∈ l := by
  rw [dedupFirst, mem_dedupFirst_aux]
  simp

theorem mem_foldl_append {β : Type} (f : β → List String) (l : List β) :
    ∀ (init : List String) (x : String),
      x ∈ l.foldl (fun acc r => acc ++ f r) init ↔ x ∈ init ∨ ∃ r ∈ l, x ∈ f r := by
  induction l with
  | nil => simp
  | cons r l ih =>
    intro init x
    simp only [List.foldl_cons]
    rw [ih]
    simp only [List.mem_append, List.mem_cons]
    constructor
    · rintro ((h | h) | ⟨r', hr', hx⟩)
      · exact Or.inl h
      · exact Or.inr ⟨r, Or.inl rfl, h⟩
      · exact Or.inr ⟨r', Or.inr hr', hx⟩
    · rintro (h | ⟨r', hr' | hr', hx⟩)
      · exact Or.inl (Or.inl h)
      · exact Or.inl (Or.inr (hr' ▸ hx))
      · exact Or.inr ⟨r', hr', hx⟩

/-- Shared characterization of the partial-dataset aggregation. -/
theorem mem_determinePartialDatasets (results : List StepResult) (t : String) :
    t ∈ determinePartialDatasets results ↔
      ∃ r ∈ results,
        (r.status ≠ .disabled ∧ t ∈ r.partialTypes) ∨
        ((r.status = .failure ∨ r.status = .partialSuccessDueToDependencyFailure) ∧
          t ∈ r.declaredTypes) := by
  rw [determinePartialDatasets, mem_dedupFirst, mem_foldl_append]
  simp only [List.not_mem_nil, false_or, List.mem_append]
  constructor
  · rintro ⟨r, hr, h | h⟩
    · by_cases hd : r.status = .disabled
      · rw [if_neg (by simp [hd])] at h
        exact absurd h (List.not_mem_nil t)
      · rw [if_pos hd] at h
        exact ⟨r, hr, Or.inl ⟨hd, h⟩⟩
    · by_cases hs : r.status = .failure ∨ r.status = .partialSuccessDueToDependencyFailure
      · rw [if_pos hs] at h
        exact ⟨r, hr, Or.inr ⟨hs, h⟩⟩
      · rw [if_neg hs] at h
        exact absurd h (List.not_mem_nil t)
  · rintro ⟨r, hr, ⟨hd, h⟩ | ⟨hs, h⟩⟩
    · exact ⟨r, hr, Or.inl (by rw [if_pos hd]; exact h)⟩
    · exact ⟨r, hr, Or.inr (by rw [if_pos hs]; exact h)⟩

/-- C1 (amended): `partialDatasets.types` is the union of the
`declaredTypes` of FAILURE steps, the `declaredTypes` of
PARTIAL_SUCCESS_DUE_TO_DEPENDENCY_FAILURE steps, and the
`partialTypes` of every step whose status is not DISABLED; a step
disabled via `getStepStartStates` does not contribute its
`partialTypes`. -/
theorem partialDatasets_union_excluding_disabled (results : List StepResult) (t : String) :
    t ∈ determinePartialDatasets results ↔
      ∃ r ∈ results,
        (r.status ≠ .disabled ∧ t ∈ r.partialTypes) ∨
        ((r.status = .failure ∨ r.status = .partialSuccessDueToDependencyFailure) ∧
          t ∈ r.declaredTypes) :=
  mem_determinePartialDatasets results t

/-- A graph entity as the store's duplicate detection sees it: its
`_key` and `_type` (modelled as `key`/`type`). -/
structure GEntity where
  key : String
  type : String
deriving DecidableEq

/-- Store-level error taxonomy (§7). -/
inductive StoreError where
  | duplicateKey : StoreError
deriving DecidableEq

/-- Whether an entity with `_key = k` already exists in the store. -/
def hasKey (store : List GEntity) (k : String) : Bool :=
  store.any (fun e => e.key == k)

/-- Modelled from the spec: `addEntity` fails with `DUPLICATE_KEY` when
another entity with the same `_key` already exists (whichever step
added it); otherwise the entity is appended to the append-only store. -/
def addEntity (store : List GEntity) (e : GEntity) : Except StoreError (List GEntity) :=
  if hasKey store e.key then .error .duplicateKey else .ok (store ++ [e])

/-- Record a successfully added `_type` into `encounteredTypes` (a
set, in encounter order). -/
def recordType (encountered : List String) (t : String) : List String :=
  if t ∈ encountered then encountered else encountered ++ [t]

/-- Modelled from the spec: a step handler's adds routed through the
job state.  The first duplicate aborts the batch: entities preceding
the duplicate are retained, the step is marked failed, and the types
recorded so far stay in `encounteredTypes`. -/
def runStepAdds (store : List GEntity) (encountered : List String) :
    List GEntity → List GEntity × List String × Bool
  | [] => (store, encountered, true)
  | e :: rest =>
    match addEntity store e with
    | .error _ => (store, encountered, false)
    | .ok store2 => runStepAdds store2 (recordType encountered e.type) rest

/-- A declared integration step together with the adds its
`executionHandler` performs. -/
structure SpecStep where
  id : String
  declaredTypes : List String
  partialTypes : List String
  adds : List GEntity
deriving DecidableEq

/-- Modelled from the spec: sequential execution of the steps over the
shared store.  A disabled step completes immediately with status
DISABLED and `encounteredTypes = []`; otherwise the handler's adds run
and the status is SUCCESS or — on a duplicate key — FAILURE. -/
def runSteps (store : List GEntity) :
    List (SpecStep × Bool) → List GEntity × List StepResult
  | [] => (store, [])
  | (step, disabledFlag) :: rest =>
    if disabledFlag then
      let r : StepResult :=
        { id := step.id, declaredTypes := step.declaredTypes,
          partialTypes := step.partialTypes, encounteredTypes := [], status := .disabled }
      let (store2, rs) := runSteps store rest
      (store2, r :: rs)
    else
      let (store2, enc, ok) := runStepAdds store [] step.adds
      let r : StepResult :=
        { id := step.id, declaredTypes := step.declaredTypes,
          partialTypes := step.partialTypes, encounteredTypes := enc,
          status := if ok then .success else .failure }
      let (store3, rs) := runSteps store2 rest
      (store3, r :: rs)

/-- Run-aborting configuration errors (§7). -/
inductive ExecError where
  | startStatesMissing (ids : List String) : ExecError
deriving DecidableEq

/-- The run result: the per-step result vector plus partial-dataset
metadata, as written to `summary.json`. -/
structure RunResult where
  integrationStepResults : List StepResult
  partialDatasetTypes : List String
deriving DecidableEq

/-- Modelled from the spec: `executeIntegrationInstance`'s validation
and execution phases.  When `getStepStartStates` is provided, a
missing entry for any declared step is a fatal configuration error
("Start states not found for …") surfaced before any step runs, so no
step results are produced; otherwise the steps run with their disabled
flags and the summary aggregates the partial datasets. -/
def executeIntegrationInstance (steps : List SpecStep)
    (startStates : Option (List (String × Bool))) : Except ExecError RunResult :=
  match startStates with
  | some states =>
    let missing := (steps.filter (fun s => (states.lookup s.id).isNone)).map (fun s => s.id)
    if missing ≠ [] then .error (.startStatesMissing missing)
    else
      let flagged := steps.map (fun s => (s, (states.lookup s.id).getD false))
      let results := (runSteps [] flagged).2
      .ok { integrationStepResults := results,
            partialDatasetTypes := determinePartialDatasets results }
  | none =>
    let results := (runSteps [] (steps.map (fun s => (s, false)))).2
    .ok { integrationStepResults := results,
          partialDatasetTypes := determinePartialDatasets results }

/-- C8: when `getStepStartStates` is provided and its result lacks an
entry for some declared step, `executeIntegrationInstance` rejects
with the fatal start-states configuration error before any step runs,
producing no step results (the error outcome carries none). -/
theorem missing_start_state_fatal
    (steps : List SpecStep) (states : List (String × Bool)) (s : SpecStep)
    (hs : s ∈ steps) (hnone : states.lookup s.id = none) :
    executeIntegrationInstance steps (some states) =
      .error (.startStatesMissing
        ((steps.filter (fun s => (states.lookup s.id).isNone)).map (fun s => s.id))) ∧
    s.id ∈ (steps.filter (fun s => (states.lookup s.id).isNone)).map (fun s => s.id) ∧
    ∀ r : RunResult, executeIntegrationInstance steps (some states) ≠ .ok r := by
  have hmem : s.id ∈ (steps.filter (fun s => (states.lookup s.id).isNone)).map
      (fun s => s.id) :=
    List.mem_map.mpr ⟨s, List.mem_filter.mpr ⟨hs, by simp [hnone]⟩, rfl⟩
  have hne : (steps.filter (fun s => (states.lookup s.id).isNone)).map (fun s => s.id) ≠ [] :=
    List.ne_nil_of_mem hmem
  have heq : executeIntegrationInstance steps (some states) =
      .error (.startStatesMissing
        ((steps.filter (fun s => (states.lookup s.id).isNone)).map (fun s => s.id))) := by
    simp only [executeIntegrationInstance]
    rw [if_pos hne]
  refine ⟨heq, hmem, ?_⟩
  intro r hr
  rw [heq] at hr
  exact absurd hr (by simp)

/-- Witness for C8 at the in-tree test "throws validation errors on
invalid output of getStepStartStates": one declared step, an empty
start-state map. -/
theorem missing_start_state_fatal_witness :
    (([] : List (String × Bool)).lookup "my-step" = none) ∧
    executeIntegrationInstance [⟨"my-step", ["test"], [], []⟩] (some []) =
      .error (.startStatesMissing ["my-step"]) :=
  ⟨rfl,
   (missing_start_state_fatal [⟨"my-step", ["test"], [], []⟩] [] ⟨"my-step", ["test"], [], []⟩
      (List.mem_singleton_self _) rfl).1⟩

/-! ### Duplicate-key rejection (C2) -/

/-- The `_key`s held by the store. -/
def keysOf (store : List GEntity) : List String := store.map (fun e => e.key)

theorem hasKey_false_not_mem (store : List GEntity) (k : String)
    (h : hasKey store k = false) : k ∉ keysOf store := by
  intro hk
  obtain ⟨e, he, hek⟩ := List.mem_map.mp hk
  have := List.any_eq_false.mp h e he
  simp [hek] at this

theorem runStepAdds_nodup (adds : List GEntity) :
    ∀ (store : List GEntity) (enc : List String), (keysOf store).Nodup →
      (keysOf (runStepAdds store enc adds).1).Nodup := by
  induction adds with
  | nil => intro store enc h; exact h
  | cons e rest ih =>
    intro store enc h
    rw [runStepAdds]
    rcases hadd : addEntity store e with _ | store2
    · exact h
    · have hnew : hasKey store e.key = false := by
        by_contra hb
        rw [addEntity, if_pos (by simpa using hb)] at hadd
        exact absurd hadd (by simp)
      have hstore2 : store2 = store ++ [e] := by
        rw [addEntity, if_neg (by simp [hnew])] at hadd
        injection hadd with h2
        exact h2.symm
      apply ih
      rw [hstore2]
      have hkeys : keysOf (store ++ [e]) = keysOf store ++ [e.key] := by simp [keysOf]
      rw [hkeys, List.nodup_append]
      exact ⟨h, List.nodup_singleton _, by
        intro a ha hb
        rw [List.mem_singleton.mp hb] at ha
        exact hasKey_false_not_mem store e.key hnew ha⟩

theorem runSteps_nodup (steps : List (SpecStep × Bool)) :
    ∀ store : List GEntity, (keysOf store).Nodup →
      (keysOf (runSteps store steps).1).Nodup := by
  induction steps with
  | nil => intro store h; exact h
  | cons sb rest ih =>
    intro store h
    obtain ⟨step, disabledFlag⟩ := sb
    rw [runSteps]
    by_cases hd : disabledFlag = true
    · rw [if_pos hd]
      exact ih store h
    · rw [if_neg hd]
      exact ih _ (runStepAdds_nodup step.adds store [] h)

theorem runStepAdds_enc_mono (adds : List GEntity) :
    ∀ (store : List GEntity) (enc : List String),
      ∀ t ∈ enc, t ∈ (runStepAdds store enc adds).2.1 := by
  induction adds with
  | nil => intro store enc t ht; exact ht
  | cons e rest ih =>
    intro store enc t ht
    rw [runStepAdds]
    rcases addEntity store e with _ | store2
    · exact ht
    · exact ih store2 (recordType enc e.type) t (by
        rw [recordType]
        split
        · exact ht
        · exact List.mem_append_left _ ht)

theorem runStepAdds_dup (pre : List GEntity) :
    ∀ (store : List GEntity) (enc : List String) (store1 : List GEntity) (enc1 : List String),
      runStepAdds store enc pre = (store1, enc1, true) →
      ∀ (e : GEntity) (rest : List GEntity), hasKey store1 e.key = true →
        runStepAdds store enc (pre ++ e :: rest) = (store1, enc1, false) ∧
        ∀ ent ∈ pre, ent.type ∈ enc1 := by
  induction pre with
  | nil =>
    intro store enc store1 enc1 h e rest hdup
    obtain ⟨h1, h2, -⟩ : store = store1 ∧ enc = enc1 ∧ True := by
      rw [runStepAdds] at h
      exact ⟨congrArg Prod.fst h, congrArg (fun p => p.2.1) h, trivial⟩
    subst h1; subst h2
    refine ⟨?_, by simp⟩
    rw [List.nil_append, runStepAdds, addEntity, if_pos hdup]
  | cons p pre ih =>
    intro store enc store1 enc1 h e rest hdup
    rw [runStepAdds] at h
    rcases hadd : addEntity store p with _ | store2
    · rw [hadd] at h
      exact absurd (congrArg (fun x => x.2.2) h) (by simp)
    · rw [hadd] at h
      obtain ⟨hrun, hmem⟩ :=
        ih store2 (recordType enc p.type) store1 enc1 h e rest hdup
      constructor
      · rw [List.cons_append, runStepAdds, hadd]
        exact hrun
      · intro ent hent
        rcases List.mem_cons.mp hent with rfl | hent'
        · have hmemRec : ent.type ∈ recordType enc ent.type := by
            rw [recordType]
            split
            next hin => exact hin
            next => exact List.mem_append_right _ (List.mem_singleton_self _)
          have hm := runStepAdds_enc_mono pre store2 (recordType enc ent.type) ent.type hmemRec
          have h' : runStepAdds store2 (recordType enc ent.type) pre = (store1, enc1, true) := h
          rw [h'] at hm
          exact hm
        · exact hmem ent hent'

/-- C2: no two entities added through the job state share a `_key`.
(a) Any run from the empty store keeps the store's keys pairwise
distinct.  (b) Adding an entity whose `_key` already exists — whether
written earlier in the same step's batch or by a prior step, since
`store` below carries everything added so far — is rejected as a
`DUPLICATE_KEY` error that fails the owning batch, while the types
successfully written before the duplicate stay in the step's
`encounteredTypes`.  (c) A FAILURE step's declared types flow into
`partialDatasets.types` (a failed step's `encounteredTypes` reach the
partial datasets through this clause when declared, as in both
duplicate-key tests). -/
theorem duplicate_key_rejected
    (steps : List (SpecStep × Bool)) (pre rest : List GEntity) (e : GEntity)
    (store store1 : List GEntity) (enc enc1 : List String)
    (results : List StepResult) (r : StepResult) (t : String) :
    (keysOf (runSteps [] steps).1).Nodup ∧
    (runStepAdds store enc pre = (store1, enc1, true) → hasKey store1 e.key = true →
      runStepAdds store enc (pre ++ e :: rest) = (store1, enc1, false) ∧
      ∀ ent ∈ pre, ent.type ∈ enc1) ∧
    (r ∈ results → r.status = .failure → t ∈ r.declaredTypes →
      t ∈ determinePartialDatasets results) := by
  refine ⟨runSteps_nodup steps [] List.nodup_nil, ?_, ?_⟩
  · intro hpre hdup
    exact runStepAdds_dup pre store enc store1 enc1 hpre e rest hdup
  · intro hr hfail ht
    exact (mem_determinePartialDatasets results t).mpr
      ⟨r, hr, Or.inr ⟨Or.inl hfail, ht⟩⟩

/-- Witness for C2 at the in-tree duplicate-key-within-a-step test:
the handler adds two entities with `_key = "key_a"` and `_type =
"duplicate_entity"`; the batch fails, the first entity's type stays
encountered, and the declared type flows into the partial datasets. -/
theorem duplicate_key_rejected_witness :
    runStepAdds [] [] [⟨"key_a", "duplicate_entity"⟩] =
      ([⟨"key_a", "duplicate_entity"⟩], ["duplicate_entity"], true) ∧
    hasKey [⟨"key_a", "duplicate_entity"⟩] "key_a" = true ∧
    runStepAdds [] [] [⟨"key_a", "duplicate_entity"⟩, ⟨"key_a", "duplicate_entity"⟩] =
      ([⟨"key_a", "duplicate_entity"⟩], ["duplicate_entity"], false) ∧
    ({ id := "a", declaredTypes := ["duplicate_entity"], partialTypes := [],
       encounteredTypes := ["duplicate_entity"], status := .failure } : StepResult) ∈
      [({ id := "a", declaredTypes := ["duplicate_entity"], partialTypes := [],
          encounteredTypes := ["duplicate_entity"], status := .failure } : StepResult)] ∧
    "duplicate_entity" ∈ determinePartialDatasets
      [{ id := "a", declaredTypes := ["duplicate_entity"], partialTypes := [],
         encounteredTypes := ["duplicate_entity"], status := .failure }] := by
  have h := duplicate_key_rejected [] [⟨"key_a", "duplicate_entity"⟩] []
    ⟨"key_a", "duplicate_entity"⟩ [] [⟨"key_a", "duplicate_entity"⟩] [] ["duplicate_entity"]
    [{ id := "a", declaredTypes := ["duplicate_entity"], partialTypes := [],
       encounteredTypes := ["duplicate_entity"], status := .failure }]
    { id := "a", declaredTypes := ["duplicate_entity"], partialTypes := [],
      encounteredTypes := ["duplicate_entity"], status := .failure } "duplicate_entity"
  refine ⟨rfl, rfl, (h.2.1 rfl rfl).1, List.mem_singleton_self _, ?_⟩
  exact h.2.2 (List.mem_singleton_self _) rfl (List.mem_singleton_self _)

/-! ## Persistence layer and compression round-trip (C9)

`JSON.parse` is modelled by a fuel-bounded recursive-descent parser
over the whitespace-free form `JSON.stringify` emits. -/

/-- Parse a hexadecimal digit. -/
def parseHexDigit (c : Char) : Option Nat :=
  if '0' ≤ c ∧ c ≤ '9' then some (c.toNat - 48)
  else if 'a' ≤ c ∧ c ≤ 'f' then some (c.toNat - 87)
  else if 'A' ≤ c ∧ c ≤ 'F' then some (c.toNat - 55)
  else none

/-- Parse the body of a JSON string after the opening quote,
accumulating unescaped characters in reverse. -/
def parseStringBody : Nat → List Char → List Char → Option (String × List Char)
  | 0, _, _ => none
  | _ + 1, [], _ => none
  | fuel + 1, c :: rest, acc =>
    if c = '"' then some (String.mk acc.reverse, rest)
    else if c = '\\' then
      match rest with
      | [] => none
      | e :: rest2 =>
        if e = '"' then parseStringBody fuel rest2 ('"' :: acc)
        else if e = '\\' then parseStringBody fuel rest2 ('\\' :: acc)
        else if e = 'b' then parseStringBody fuel rest2 ('\x08' :: acc)
        else if e = 't' then parseStringBody fuel rest2 ('\x09' :: acc)
        else if e = 'n' then parseStringBody fuel rest2 ('\x0a' :: acc)
        else if e = 'f' then parseStringBody fuel rest2 ('\x0c' :: acc)
        else if e = 'r' then parseStringBody fuel rest2 ('\x0d' :: acc)
        else if e = 'u' then
          match rest2 with
          | h1 :: h2 :: h3 :: h4 :: rest3 =>
            match parseHexDigit h1, parseHexDigit h2, parseHexDigit h3, parseHexDigit h4 with
            | some d1, some d2, some d3, some d4 =>
              parseStringBody fuel rest3
                (Char.ofNat (((d1 * 16 + d2) * 16 + d3) * 16 + d4) :: acc)
            | _, _, _, _ => none
          | _ => none
        else none
    else parseStringBody fuel rest (c :: acc)

/-- Consume a run of decimal digits. -/
def parseDigits : Nat → List Char → Nat → Nat × List Char
  | 0, cs, acc => (acc, cs)
  | fuel + 1, cs, acc =>
    match cs with
    | c :: rest =>
      if '0' ≤ c ∧ c ≤ '9' then parseDigits fuel rest (acc * 10 + (c.toNat - 48))
      else (acc, cs)
    | [] => (acc, [])

mutual

/-- Parse one JSON value from the head of the input. -/
def parseValue : Nat → List Char → Option (Json × List Char)
  | 0, _ => none
  | fuel + 1, cs =>
    match cs with
    | 'n' :: 'u' :: 'l' :: 'l' :: rest => some (.null, rest)
    | 't' :: 'r' :: 'u' :: 'e' :: rest => some (.bool true, rest)
    | 'f' :: 'a' :: 'l' :: 's' :: 'e' :: rest => some (.bool false, rest)
    | '"' :: rest =>
      match parseStringBody fuel rest [] with
      | some (s, r) => some (.str s, r)
      | none => none
    | '[' :: ']' :: rest => some (.arr [], rest)
    | '[' :: rest =>
      match parseItems fuel rest with
      | some (xs, r) => some (.arr xs, r)
      | none => none
    | '{' :: '}' :: rest => some (.obj [], rest)
    | '{' :: rest =>
      match parseFields fuel rest with
      | some (fs, r) => some (.obj fs, r)
      | none => none
    | '-' :: c :: rest =>
      if '0' ≤ c ∧ c ≤ '9' then
        match parseDigits fuel (c :: rest) 0 with
        | (n, r) => some (.num (-(n : Int)), r)
      else none
    | c :: rest =>
      if '0' ≤ c ∧ c ≤ '9' then
        match parseDigits fuel (c :: rest) 0 with
        | (n, r) => some (.num (n : Int), r)
      else none
    | [] => none

/-- Parse the elements of a non-empty JSON array after `[`. -/
def parseItems : Nat → List Char → Option (List Json × List Char)
  | 0, _ => none
  | fuel + 1, cs =>
    match parseValue fuel cs with
    | none => none
    | some (v, rest) =>
      match rest with
      | ',' :: rest2 =>
        match parseItems fuel rest2 with
        | some (xs, r) => some (v :: xs, r)
        | none => none
      | ']' :: rest2 => some ([v], rest2)
      | _ => none

/-- Parse the fields of a non-empty JSON object after `{`. -/
def parseFields : Nat → List Char → Option (List (String × Json) × List Char)
  | 0, _ => none
  | fuel + 1, cs =>
    match cs with
    | '"' :: rest =>
      match parseStringBody fuel rest [] with
      | some (k, ':' :: rest2) =>
        match parseValue fuel rest2 with
        | some (v, ',' :: rest3) =>
          match parseFields fuel rest3 with
          | some (fs, r) => some ((k, v) :: fs, r)
          | none => none
        | some (v, '}' :: rest3) => some ([(k, v)], rest3)
        | _ => none
      | _ => none
    | _ => none

end

/-- `JSON.parse` on a whole document. -/
def parseJson (s : String) : Option Json :=
  match parseValue (2 * s.data.length + 4) s.data with
  | some (j, []) => some j
  | _ => none

/-- Path of a file under `graph/`: `graph/<stepId>/<kind>/<uuid>.json`. -/
structure GraphFilePath where
  stepId : String
  kind : UploadKind
  uuid : String
deriving DecidableEq

/-- A `FlushedFile` payload: `{entities: [...]}` or
`{relationships: [...]}`, never both. -/
def encodeFlushedFile (kind : UploadKind) (objs : List Json) : Json :=
  Json.obj [(kind.segment, Json.arr objs)]

/-- Modelled from the spec: a flushed graph file is the JSON
serialization of its `FlushedFile`, Brotli-compressed when
`INTEGRATION_FILE_COMPRESSION_ENABLED` is non-empty. -/
def writeGraphFile (compressionEnabled : Bool) (compress : String → String)
    (payload : Json) : String :=
  if compressionEnabled then compress (stringifyJ payload) else stringifyJ payload

/-- Modelled from the spec: the final flush of a step that buffered
`entities` and `relationships` writes at most one entities file and at
most one relationships file under `graph/<stepId>/…` (empty buffers
write nothing); paths sort entities before relationships. -/
def flushStepFiles (stepId euid ruid : String) (compressionEnabled : Bool)
    (compress : String → String) (entities relationships : List Json) :
    List (GraphFilePath × String) :=
  (if entities.length ≠ 0 then
    [(⟨stepId, .entities, euid⟩,
      writeGraphFile compressionEnabled compress (encodeFlushedFile .entities entities))]
   else []) ++
  (if relationships.length ≠ 0 then
    [(⟨stepId, .relationships, ruid⟩,
      writeGraphFile compressionEnabled compress (encodeFlushedFile .relationships relationships))]
   else [])

/-- A reader transparently decompresses, then parses. -/
def readGraphFile (compressionEnabled : Bool) (decompress : String → String)
    (contents : String) : Option Json :=
  parseJson (if compressionEnabled then decompress contents else contents)

/-- First entity of the compression test. -/
def testEntity1 : Json :=
  .obj [("_key", .str "test"), ("_type", .str "test"), ("_class", .str "Test")]

/-- Second entity of the compression test. -/
def testEntity2 : Json :=
  .obj [("_key", .str "test1"), ("_type", .str "test"), ("_class", .str "Test")]

/-- The direct relationship of the compression test, built by the real
`createRelationship` embedding. -/
def testRelationship : Json := createRelationship "HAS" "test" "test" "test" "test1" []

/-- The expected `{entities: [...]}` flushed file. -/
def testEntitiesFile : Json := encodeFlushedFile .entities [testEntity1, testEntity2]

/-- The expected `{relationships: [...]}` flushed file. -/
def testRelationshipsFile : Json := encodeFlushedFile .relationships [testRelationship]

/-- C9: with compression enabled, every flushed graph file is written
as the compressed serialization of its `FlushedFile` and round-trips —
decompressing recovers the exact serialization — and at the
compression test's data, two entities and one direct relationship
yield exactly one `{entities: […]}` file holding both entities and one
`{relationships: […]}` file holding that relationship, which
decompress and parse back to the very objects written (the
relationship being the one the in-tree `createRelationship` builds). -/
theorem compressed_flush_roundtrip
    (compress decompress : String → String)
    (hcd : ∀ s, decompress (compress s) = s) :
    (∀ (stepId euid ruid : String) (es rs : List Json) (p : GraphFilePath) (c : String),
      (p, c) ∈ flushStepFiles stepId euid ruid true compress es rs →
      decompress c = stringifyJ (encodeFlushedFile p.kind
        (if p.kind = .entities then es else rs))) ∧
    flushStepFiles "my-step" "u1" "u2" true compress [testEntity1, testEntity2]
        [testRelationship] =
      [(⟨"my-step", .entities, "u1"⟩, compress (stringifyJ testEntitiesFile)),
       (⟨"my-step", .relationships, "u2"⟩, compress (stringifyJ testRelationshipsFile))] ∧
    readGraphFile true decompress (compress (stringifyJ testEntitiesFile)) =
      some testEntitiesFile ∧
    readGraphFile true decompress (compress (stringifyJ testRelationshipsFile)) =
      some testRelationshipsFile := by
  refine ⟨?_, rfl, ?_, ?_⟩
  · intro stepId euid ruid es rs p c hmem
    rw [flushStepFiles] at hmem
    rcases List.mem_append.mp hmem with h | h
    · split at h
      · rcases List.mem_singleton.mp h with ⟨rfl, rfl⟩
        rw [writeGraphFile, if_pos rfl, hcd]
        rfl
      · exact absurd h (List.not_mem_nil _)
    · split at h
      · rcases List.mem_singleton.mp h with ⟨rfl, rfl⟩
        rw [writeGraphFile, if_pos rfl, hcd]
        rfl
      · exact absurd h (List.not_mem_nil _)
  · rw [readGraphFile, if_pos rfl, hcd]
    set_option maxRecDepth 20000 in rfl
  · rw [readGraphFile, if_pos rfl, hcd]
    set_option maxRecDepth 20000 in rfl

/-- Witness for C9 with the identity codec. -/
theorem compressed_flush_roundtrip_witness :
    readGraphFile true id (id (stringifyJ testEntitiesFile)) = some testEntitiesFile ∧
    readGraphFile true id (id (stringifyJ testRelationshipsFile)) = some testRelationshipsFile :=
  ⟨(compressed_flush_roundtrip id id (fun _ => rfl)).2.2.1,
   (compressed_flush_roundtrip id id (fun _ => rfl)).2.2.2⟩

end SdkSpec
